import Mathlib

/-!
Verification of the glocko2 Glicko-2 rating library.

The Go source (glicko2.go) is embedded shallowly over the real numbers:
float64 arithmetic is modelled by exact real arithmetic, the two
potentially nonterminating loops (`volK`'s bracket-widening search and the
Illinois iteration inside `computeVolatility`) are modelled with explicit
fuel, returning `none` when the fuel runs out while the loop is still
running.  Division by zero follows the Lean convention `x / 0 = 0`.
-/

open scoped Classical

noncomputable section

namespace Glocko2

/-- Scaling factor for Glicko2 (source constant `scaling`). -/
def scaling : ℝ := 173.7178

/-- Convergence tolerance (source constant `ε = 0.000001`). -/
def eps : ℝ := 0.000001

/-- System-wide volatility tuning constant (source constant `tau`). -/
def tauConst : ℝ := 0.5

/-- Source `Player`: ranking, ranking deviation, volatility. -/
structure Player where
  R : ℝ
  Rd : ℝ
  Sigma : ℝ

/-- Source `Opponent`: opponent ranking, deviation, and score (0, 0.5 or 1). -/
structure Opponent where
  Rj : ℝ
  Rdj : ℝ
  Sj : ℝ

/-- Source `opp`: the per-opponent derived record. -/
structure opp where
  muj : ℝ
  phij : ℝ
  gphij : ℝ
  emmp : ℝ
  sj : ℝ

/-- Source `scale`: external rating units to internal Glicko-2 units. -/
def scale (r rd : ℝ) : ℝ × ℝ :=
  ((r - 1500.0) / scaling, rd / scaling)

/-- Source `g`: the impact factor. -/
def g (phi : ℝ) : ℝ :=
  1 / Real.sqrt (1 + 3 * phi * phi / (Real.pi * Real.pi))

/-- Source `e`: the expected score of the subject against an opponent. -/
def e (mu muj phij : ℝ) : ℝ :=
  1 / (1 + Real.exp (-g phij * (mu - muj)))

/-- Source `scaleOpponents`: build the per-opponent derived records. -/
def scaleOpponents (mu : ℝ) (os : List Opponent) : List opp :=
  os.map (fun o =>
    let sc := scale o.Rj o.Rdj
    ⟨sc.1, sc.2, g sc.2, e mu sc.1 sc.2, o.Sj⟩)

/-- Source `updateRating`: the estimated variance `v = 1 / Σ g² E (1-E)`. -/
def updateRating (sopp : List opp) : ℝ :=
  1 / sopp.foldl (fun s o => s + o.gphij * o.gphij * o.emmp * (1 - o.emmp)) 0.0

/-- Source `computeDelta`: the estimated rating change `v · Σ g (s - E)`. -/
def computeDelta (v : ℝ) (sopp : List opp) : ℝ :=
  v * sopp.foldl (fun s o => s + o.gphij * (o.sj - o.emmp)) 0.0

/-- The loop of source `volK`, with the Go state `(c, k)` made explicit and
fuel added: `none` means the loop is still running after `fuel` checks of
the loop condition `f(c) < 0`. -/
def volKLoop (f : ℝ → ℝ) (a s : ℝ) : ℕ → ℝ → ℝ → Option ℝ
  | 0, _, _ => none
  | fuel + 1, c, k => if f c < 0.0 then volKLoop f a s fuel (a - k * s) (k + 1.0) else some c

/-- Source `volK`: the downward bracket-widening search.  Starts at
`c = a - 0·√(τ·τ) = a` with `k = 0`, exactly as in the source. -/
def volK (f : ℝ → ℝ) (a tau : ℝ) (fuel : ℕ) : Option ℝ :=
  volKLoop f a (Real.sqrt (tau * tau)) fuel (a - 0.0 * Real.sqrt (tau * tau)) 0.0

/-- Source `sign`: -1, 0 or 1 for negative / zero / positive. -/
def sign (x : ℝ) : ℝ :=
  if x < 0 then -1.0 else if x > 0 then 1.0 else 0.0

/-- The closure `f` defined inside source `computeVolatility`
(`a = ln(sigma²)`, `phi2 = phi²` are the captured values). -/
def volF (a phi2 v delta tau : ℝ) (x : ℝ) : ℝ :=
  let ex := Real.exp x
  let d2 := delta * delta
  let a2 := phi2 + v + ex
  let p2 := (x - a) / (tau * tau)
  let p1 := ex * (d2 - phi2 - v - ex) / (2 * a2 * a2)
  p1 - p2

/-- The choice of the initial upper bracket endpoint `b` in source
`computeVolatility`: the guard in the source is `delta*delta > phi*phi`. -/
def initialB (f : ℝ → ℝ) (a delta phi v tau : ℝ) (fuel : ℕ) : Option ℝ :=
  if delta * delta > phi * phi then
    some (Real.log (delta * delta - phi * phi - v))
  else
    volK f a tau fuel

/-- The bracket condition as the specification words it:
`delta² > phi² + v`.  Kept separate from `initialB` (which embeds the
source guard `delta² > phi²`) so the two can be compared. -/
def bracketCondSpec (delta phi v : ℝ) : Prop :=
  delta * delta > phi * phi + v

/-- The Illinois loop of source `computeVolatility`, with the Go state
`(a, b, fa, fb)` and the loop counter `i` made explicit and fuel added:
`none` means the loop is still running after `fuel` checks of the
convergence test.  The source loop header is `for i := 100; ; i--`: the
counter is initialised and decremented but the header has no condition,
which the embedding reproduces faithfully (`i` is threaded but never
consulted). -/
def illinoisLoop (f : ℝ → ℝ) : ℕ → ℝ → ℝ → ℝ → ℝ → ℤ → Option ℝ
  | 0, _, _, _, _, _ => none
  | fuel + 1, a, b, fa, fb, i =>
    if |b - a| ≤ eps then some (Real.exp (a / 2))
    else
      let c := (a + b) * 0.5
      let fc := f c
      let d := c + (c - a) * (sign (fa - fb) * fc) / Real.sqrt (fc * fc - fa * fb)
      let fd := f d
      if sign fd ≠ sign fc then illinoisLoop f fuel c d fc fd (i - 1)
      else if sign fd ≠ sign fa then illinoisLoop f fuel a d fa fd (i - 1)
      else illinoisLoop f fuel d b fd fb (i - 1)

/-- Source `computeVolatility`: composes the closure `f`, the initial
bracket choice and the Illinois loop.  `fuelK` bounds the bracket-widening
search and `fuelI` the Illinois iteration; `none` means the corresponding
source loop would still be running. -/
def computeVolatility (sigma phi v delta tau : ℝ) (fuelK fuelI : ℕ) : Option ℝ :=
  let a := Real.log (sigma * sigma)
  let phi2 := phi * phi
  let f := volF a phi2 v delta tau
  match initialB f a delta phi v tau fuelK with
  | none => none
  | some b => illinoisLoop f fuelI a b (f a) (f b) 100

/-- Source `phiStar`. -/
def phiStar (sigmap phi : ℝ) : ℝ :=
  Real.sqrt (phi * phi + sigmap * sigmap)

/-- Source `newRating`: the new internal rating and deviation. -/
def newRating (phis mu v : ℝ) (sopp : List opp) : ℝ × ℝ :=
  let phip := 1 / Real.sqrt (1 / (phis * phis) + 1 / v)
  let s := sopp.foldl (fun acc o => acc + o.gphij * (o.sj - o.emmp)) 0.0
  (mu + phip * phip * s, phip)

/-- Source `unscale`: internal units back to external rating units. -/
def unscale (mup phip : ℝ) : ℝ × ℝ :=
  (scaling * mup + 1500.0, scaling * phip)

/-- Modelled from the spec: the top-level entry point (`Rate`, called by
the repository's tests on a `Player`) is absent from the source files;
the spec says it "composes 4.1→4.6 in sequence for one player against a
list of opponents, given the shared tuning constant `tau`, returning
`(R', Rd', sigma')`".  `fuelK`/`fuelI` are the fuels of the two solver
loops; `none` propagates a still-running solver loop. -/
def rate (p : Player) (os : List Opponent) (tau : ℝ) (fuelK fuelI : ℕ) :
    Option (ℝ × ℝ × ℝ) :=
  let mp := scale p.R p.Rd
  let sopp := scaleOpponents mp.1 os
  let v := updateRating sopp
  let delta := computeDelta v sopp
  match computeVolatility p.Sigma mp.2 v delta tau fuelK fuelI with
  | none => none
  | some sigmap =>
    let phis := phiStar sigmap mp.2
    let nr := newRating phis mp.1 v sopp
    let u := unscale nr.1 nr.2
    some (u.1, u.2, sigmap)

/-! ### Theorems -/

/-- C5: for every `r` and every `rd ≥ 0`, `unscale (scale (r, rd)) = (r, rd)`:
`unscale` is the exact inverse of `scale` (with `S = 173.7178` the fixed
scaling constant). -/
theorem unscale_scale_roundTrip (r rd : ℝ) (hrd : 0 ≤ rd) :
    unscale (scale r rd).1 (scale r rd).2 = (r, rd) := by
  have hs : scaling ≠ 0 := by norm_num [scaling]
  simp only [scale, unscale, Prod.mk.injEq]
  constructor
  · field_simp
  · field_simp

/-- Witness for `unscale_scale_roundTrip` at `r = 1500`, `rd = 200`. -/
theorem unscale_scale_roundTrip_witness :
    (0 : ℝ) ≤ 200 ∧ unscale (scale 1500 200).1 (scale 1500 200).2 = (1500, 200) :=
  ⟨by norm_num, unscale_scale_roundTrip 1500 200 (by norm_num)⟩

/-- C10: for all `mu`, `muj`, `phij`, the expected score of the subject
against an opponent and that of the opponent against the subject (with the
same deviation argument) sum to one: `e mu muj phij + e muj mu phij = 1`. -/
theorem e_add_e_swap (mu muj phij : ℝ) :
    e mu muj phij + e muj mu phij = 1 := by
  simp only [e]
  have h1 : -g phij * (muj - mu) = g phij * (mu - muj) := by ring
  have h2 : -g phij * (mu - muj) = -(g phij * (mu - muj)) := by ring
  rw [h1, h2, Real.exp_neg]
  set y := Real.exp (g phij * (mu - muj)) with hy
  have hy0 : 0 < y := Real.exp_pos _
  have hinv : 0 < y⁻¹ := inv_pos.mpr hy0
  have h3 : 1 + y⁻¹ ≠ 0 := by positivity
  have h4 : 1 + y ≠ 0 := by positivity
  field_simp
  ring

/-- C6: on the empty opponent-record list `updateRating` performs no
validation and does not fail: the folded sum is `0` and the result is the
division-by-zero value `1 / 0`. -/
theorem updateRating_empty :
    updateRating ([] : List opp) = 1 / 0 ∧
      (([] : List opp).foldl
        (fun s o => s + o.gphij * o.gphij * o.emmp * (1 - o.emmp)) 0.0 = 0) := by
  constructor
  · norm_num [updateRating]
  · norm_num

/-- C9: `ε = 1e-6`, and as soon as the bracket satisfies `|B - A| ≤ ε`, the
Illinois loop of `computeVolatility` stops and returns `exp(A/2)` where `A`
is the current lower bracket endpoint. -/
theorem illinois_converged :
    eps = 1 / 1000000 ∧
      ∀ (f : ℝ → ℝ) (n : ℕ) (a b fa fb : ℝ) (i : ℤ), |b - a| ≤ eps →
        illinoisLoop f (n + 1) a b fa fb i = some (Real.exp (a / 2)) := by
  constructor
  · norm_num [eps]
  · intro f n a b fa fb i h
    simp only [illinoisLoop]
    rw [if_pos h]

/-- Witness for `illinois_converged` at `a = b = 0`. -/
theorem illinois_converged_witness :
    |(0 : ℝ) - 0| ≤ eps ∧
      illinoisLoop (fun _ => (0 : ℝ)) 1 0 0 0 0 0 = some (Real.exp (0 / 2)) :=
  ⟨by norm_num [eps], illinois_converged.2 (fun _ => 0) 0 0 0 0 0 0 (by norm_num [eps])⟩

/-- C1 (failing input): at `delta = 2`, `phi = 1`, `v = 5` (with
`sigma = 1`, so `a = ln 1 = 0`, and `tau = 1/2`) the source guard
`delta² > phi²` holds, so `computeVolatility` sets
`B = ln(delta² - phi² - v) = ln(-2)` — yet the claimed condition
`delta² > phi² + v` is false (4 ≤ 6) and the log argument is negative, so
per the claim the downward search should have been used instead. -/
theorem initialB_guard_mismatch :
    initialB (volF 0 1 5 2 (1 / 2)) 0 2 1 5 (1 / 2) 0
        = some (Real.log (2 * 2 - 1 * 1 - 5)) ∧
      ¬ bracketCondSpec 2 1 5 ∧ (2 * 2 - 1 * 1 - 5 : ℝ) < 0 := by
  refine ⟨?_, ?_, ?_⟩
  · simp only [initialB]
    rw [if_pos (by norm_num : (2 : ℝ) * 2 > 1 * 1)]
  · norm_num [bracketCondSpec]
  · norm_num

lemma volKLoop_neg_none (a s : ℝ) :
    ∀ (fuel : ℕ) (c k : ℝ), volKLoop (fun _ => (-1 : ℝ)) a s fuel c k = none := by
  intro fuel
  induction fuel with
  | zero => intro c k; rfl
  | succ n ih =>
    intro c k
    simp only [volKLoop]
    rw [if_pos (by norm_num : (-1 : ℝ) < 0.0)]
    exact ih _ _

/-- C3 (counterexample): on the everywhere-negative function the
bracket-widening search is still running after 20000 iterations — far past
the claimed 10000-step bound — and no fatal failure has occurred (the
source `volK` has no failure path at all). -/
theorem volK_unbounded_counterexample :
    volK (fun _ => (-1 : ℝ)) 0 (1 / 2) 20000 = none := by
  simp only [volK]
  exact volKLoop_neg_none _ _ 20000 _ _

lemma volKLoop_some_nonneg (f : ℝ → ℝ) (a s : ℝ) :
    ∀ (fuel : ℕ) (c k x : ℝ), volKLoop f a s fuel c k = some x → 0 ≤ f x := by
  intro fuel
  induction fuel with
  | zero => intro c k x h; simp [volKLoop] at h
  | succ n ih =>
    intro c k x h
    simp only [volKLoop] at h
    by_cases hc : f c < 0.0
    · rw [if_pos hc] at h
      exact ih _ _ _ h
    · rw [if_neg hc] at h
      obtain rfl : c = x := Option.some.inj h
      have := not_lt.mp hc
      norm_num at this
      exact this

/-- C3 (amended): the bracket-widening search `volK` has no iteration bound
and no fatal-failure path; whenever it returns a value `c`, that value
satisfies `f c ≥ 0` (the sign has changed), but when `f` stays negative
along the search sequence it simply never terminates. -/
theorem volK_sound (f : ℝ → ℝ) (a tau : ℝ) (fuel : ℕ) (c : ℝ)
    (h : volK f a tau fuel = some c) : 0 ≤ f c := by
  simp only [volK] at h
  exact volKLoop_some_nonneg f a _ fuel _ _ c h

/-- Witness for `volK_sound` on the everywhere-positive constant function. -/
theorem volK_sound_witness :
    volK (fun _ => (1 : ℝ)) 0 1 1 = some 0 ∧ (0 : ℝ) ≤ (fun _ : ℝ => (1 : ℝ)) 0 := by
  have hvolk : volK (fun _ => (1 : ℝ)) 0 1 1 = some 0 := by
    norm_num [volK, volKLoop]
  exact ⟨hvolk, volK_sound (fun _ => (1 : ℝ)) 0 1 1 0 hvolk⟩

lemma illinoisLoop_counter_irrel (f : ℝ → ℝ) :
    ∀ (fuel : ℕ) (a b fa fb : ℝ) (i j : ℤ),
      illinoisLoop f fuel a b fa fb i = illinoisLoop f fuel a b fa fb j := by
  intro fuel
  induction fuel with
  | zero => intros; rfl
  | succ n ih =>
    intro a b fa fb i j
    simp only [illinoisLoop]
    split_ifs <;> first | rfl | apply ih

lemma illinois_step_one (n : ℕ) (a b : ℝ) (i : ℤ) (h : ¬ |b - a| ≤ eps) :
    illinoisLoop (fun _ => (1 : ℝ)) (n + 1) a b 1 1 i
      = illinoisLoop (fun _ => (1 : ℝ)) n ((a + b) * 0.5) b 1 1 (i - 1) := by
  simp only [illinoisLoop]
  rw [if_neg h]
  norm_num [sign]

lemma illinoisLoop_one_none :
    ∀ (fuel : ℕ) (a b : ℝ) (i : ℤ), eps * 2 ^ fuel < b - a →
      illinoisLoop (fun _ => (1 : ℝ)) fuel a b 1 1 i = none := by
  intro fuel
  induction fuel with
  | zero => intros; rfl
  | succ n ih =>
    intro a b i h
    have heps : (0 : ℝ) < eps := by norm_num [eps]
    have hpow : (0 : ℝ) < 2 ^ (n + 1) := by positivity
    have hba : 0 < b - a := lt_trans (by positivity) h
    have hone : (1 : ℝ) < 2 ^ (n + 1) := by
      calc (1 : ℝ) < 2 := one_lt_two
      _ = 2 ^ 1 := (pow_one 2).symm
      _ ≤ 2 ^ (n + 1) := by
        apply pow_le_pow_right₀ (by norm_num)
        omega
    have habs : ¬ |b - a| ≤ eps := by
      rw [abs_of_pos hba]
      push_neg
      calc eps = eps * 1 := (mul_one eps).symm
      _ < eps * 2 ^ (n + 1) := by
        exact mul_lt_mul_of_pos_left hone heps
      _ < b - a := h
    rw [illinois_step_one n a b i habs]
    apply ih
    have h05 : ((0.5 : ℝ)) = 1 / 2 := by norm_num
    have hsucc : eps * 2 ^ (n + 1) = eps * 2 ^ n * 2 := by ring
    rw [h05]
    nlinarith [h]

/-- C2: the Illinois loop in `computeVolatility` has no iteration cap at
all: (a) the loop counter (initialised to 100 and decremented) never
influences the result — it is dead, so the `panic("Exceeded iterations")`
after the loop is unreachable; and (b) starting from the source's counter
value 100, the loop is still running after 150 iterations (on a wide
bracket with a constant model function) instead of having failed at 100. -/
theorem illinois_no_iteration_cap :
    (∀ (f : ℝ → ℝ) (fuel : ℕ) (a b fa fb : ℝ) (i j : ℤ),
        illinoisLoop f fuel a b fa fb i = illinoisLoop f fuel a b fa fb j) ∧
      illinoisLoop (fun _ => (1 : ℝ)) 150 0 (eps * 2 ^ 151) 1 1 100 = none := by
  constructor
  · intro f fuel a b fa fb i j
    exact illinoisLoop_counter_irrel f fuel a b fa fb i j
  · apply illinoisLoop_one_none
    have heps : (0 : ℝ) < eps := by norm_num [eps]
    have : (2 : ℝ) ^ 150 < 2 ^ 151 := by
      apply pow_lt_pow_right₀ (by norm_num)
      omega
    nlinarith [this]

lemma arg_pos (phi : ℝ) : 0 < 1 + 3 * phi * phi / (Real.pi * Real.pi) := by
  have h0 : 0 ≤ 3 * phi * phi := by nlinarith [mul_self_nonneg phi]
  have h2 : 0 < Real.pi * Real.pi := by positivity
  have := div_nonneg h0 h2.le
  linarith

lemma g_pos (phi : ℝ) : 0 < g phi := by
  simp only [g]
  have h1 := arg_pos phi
  have h2 : 0 < Real.sqrt (1 + 3 * phi * phi / (Real.pi * Real.pi)) :=
    Real.sqrt_pos.mpr h1
  exact one_div_pos.mpr h2

/-- C8: the impact factor `g` always lies in `(0, 1]`, satisfies
`g 0 = 1`, and is strictly decreasing in `|phi|`. -/
theorem g_shape :
    (∀ phi : ℝ, 0 < g phi ∧ g phi ≤ 1) ∧ g 0 = 1 ∧
      (∀ phi1 phi2 : ℝ, |phi1| < |phi2| → g phi2 < g phi1) := by
  refine ⟨fun phi => ⟨g_pos phi, ?_⟩, ?_, ?_⟩
  · simp only [g]
    have h1 := arg_pos phi
    have h2 : 0 < Real.sqrt (1 + 3 * phi * phi / (Real.pi * Real.pi)) :=
      Real.sqrt_pos.mpr h1
    rw [div_le_one h2, Real.one_le_sqrt]
    have h0 : 0 ≤ 3 * phi * phi := by nlinarith [mul_self_nonneg phi]
    have hp : 0 < Real.pi * Real.pi := by positivity
    have := div_nonneg h0 hp.le
    linarith
  · simp only [g]
    norm_num [Real.sqrt_one]
  · intro phi1 phi2 h
    simp only [g]
    have hsq : phi1 * phi1 < phi2 * phi2 := by
      have h2 := mul_self_lt_mul_self (abs_nonneg phi1) h
      rwa [abs_mul_abs_self, abs_mul_abs_self] at h2
    have hp : 0 < Real.pi * Real.pi := by positivity
    have hnum : 3 * phi1 * phi1 < 3 * phi2 * phi2 := by nlinarith [hsq]
    have hu : 1 + 3 * phi1 * phi1 / (Real.pi * Real.pi)
        < 1 + 3 * phi2 * phi2 / (Real.pi * Real.pi) := by
      have := (div_lt_div_iff_of_pos_right hp).mpr hnum
      linarith
    have h1 := arg_pos phi1
    have hs1 : 0 < Real.sqrt (1 + 3 * phi1 * phi1 / (Real.pi * Real.pi)) :=
      Real.sqrt_pos.mpr h1
    have hss : Real.sqrt (1 + 3 * phi1 * phi1 / (Real.pi * Real.pi))
        < Real.sqrt (1 + 3 * phi2 * phi2 / (Real.pi * Real.pi)) :=
      Real.sqrt_lt_sqrt h1.le hu
    exact one_div_lt_one_div_of_lt hs1 hss

/-- Witness for the strict-decrease part of `g_shape`, at `phi1 = 0`,
`phi2 = 1`. -/
theorem g_shape_witness : |(0 : ℝ)| < |(1 : ℝ)| ∧ g 1 < g 0 :=
  ⟨by norm_num, g_shape.2.2 0 1 (by norm_num)⟩

/-- C4: the top-level entry point (modelled from the spec as `rate`)
composes scaling, opponent projection, variance estimation
(`updateRating`), delta estimation (`computeDelta`), the volatility solver
(`computeVolatility`), `phiStar`, `newRating` and unscaling in that order,
and returns the triple `(R', Rd', sigma')` for the subject. -/
theorem rate_composition (p : Player) (os : List Opponent) (tau : ℝ) (fuelK fuelI : ℕ) :
    rate p os tau fuelK fuelI =
      (computeVolatility p.Sigma (scale p.R p.Rd).2
          (updateRating (scaleOpponents (scale p.R p.Rd).1 os))
          (computeDelta (updateRating (scaleOpponents (scale p.R p.Rd).1 os))
            (scaleOpponents (scale p.R p.Rd).1 os)) tau fuelK fuelI).map
        (fun sigmap =>
          ((unscale
              (newRating (phiStar sigmap (scale p.R p.Rd).2) (scale p.R p.Rd).1
                (updateRating (scaleOpponents (scale p.R p.Rd).1 os))
                (scaleOpponents (scale p.R p.Rd).1 os)).1
              (newRating (phiStar sigmap (scale p.R p.Rd).2) (scale p.R p.Rd).1
                (updateRating (scaleOpponents (scale p.R p.Rd).1 os))
                (scaleOpponents (scale p.R p.Rd).1 os)).2).1,
            (unscale
              (newRating (phiStar sigmap (scale p.R p.Rd).2) (scale p.R p.Rd).1
                (updateRating (scaleOpponents (scale p.R p.Rd).1 os))
                (scaleOpponents (scale p.R p.Rd).1 os)).1
              (newRating (phiStar sigmap (scale p.R p.Rd).2) (scale p.R p.Rd).1
                (updateRating (scaleOpponents (scale p.R p.Rd).1 os))
                (scaleOpponents (scale p.R p.Rd).1 os)).2).2,
            sigmap)) := by
  simp only [rate]
  cases h : computeVolatility p.Sigma (scale p.R p.Rd).2
      (updateRating (scaleOpponents (scale p.R p.Rd).1 os))
      (computeDelta (updateRating (scaleOpponents (scale p.R p.Rd).1 os))
        (scaleOpponents (scale p.R p.Rd).1 os)) tau fuelK fuelI with
  | none => rfl
  | some s => rfl

end Glocko2

end
